import Mathlib

/-!
# Verification of the pinion authentication / phone-verification core

Shallow embedding of the security-relevant parts of the pinion server
(`src/crypto.rs`, `src/schema.rs`, `src/config.rs`, `src/main.rs`,
`src/models.rs`, `src/error.rs`) together with proofs about them.

Modelling conventions:
* Rust byte buffers and strings are modelled as `List Nat`, each element a
  byte (or a Unicode scalar value for strings); `String::from_utf8` over
  bytes that came from a Rust `&str` is the identity at this level.
* The `ring` primitives (PBKDF2-HMAC-SHA512, HMAC-SHA256, AES-256-GCM) are
  external library code; they are modelled abstractly as deterministic keyed
  byte functions built from an executable mixing function, preserving the
  interfaces and the algebraic facts the code relies on (determinism,
  AEAD seal/open inversion, tag recomputation equality).
* Randomness and the system clock are passed explicitly: every function that
  calls `rand_bytes` or `Utc::now()` in the source takes the drawn bytes
  (as an `Except`, mirroring the fallible `rand_bytes`) and the current
  time as parameters.
* The PostgreSQL tables touched by the auth flows are modelled as lists of
  row structures inside a `Db` state; each SQL statement becomes an explicit
  pure state transformation following the statement's `where` clause.
-/

namespace Pinion

/-! ## Definitions -/

/-- Byte strings / Rust strings: lists of (byte-sized) naturals. -/
abbrev Bytes := List Nat

/-- Unicode scalar values of a Lean string literal, used to write Rust
string constants at the byte level. -/
def strBytes (s : String) : Bytes := s.data.map Char.toNat

/-- Lower-case hex digit character for a nibble, as `hex::encode` emits. -/
def hexDigit (n : Nat) : Nat := if n < 10 then 48 + n else 87 + n

/-- `hex::encode`: each byte becomes two lower-case hex characters. -/
def hexEncode : Bytes → Bytes
  | [] => []
  | b :: rest => hexDigit (b / 16) :: hexDigit (b % 16) :: hexEncode rest

/-- Value of one hex character; `hex::decode` accepts both cases. -/
def hexDigitVal (c : Nat) : Option Nat :=
  if 48 ≤ c ∧ c ≤ 57 then some (c - 48)
  else if 97 ≤ c ∧ c ≤ 102 then some (c - 97 + 10)
  else if 65 ≤ c ∧ c ≤ 70 then some (c - 65 + 10)
  else none

/-- `hex::decode`: fails on odd length or any non-hex character. -/
def hexDecode : Bytes → Option Bytes
  | [] => some []
  | [_] => none
  | c1 :: c2 :: rest =>
    match hexDigitVal c1, hexDigitVal c2, hexDecode rest with
    | some h, some l, some r => some ((h * 16 + l) :: r)
    | _, _, _ => none

/-- Character of a sextet in the URL-safe alphabet
(`A-Z`, `a-z`, `0-9`, `-`, `_`). -/
def b64Char (v : Nat) : Nat :=
  if v < 26 then 65 + v
  else if v < 52 then 97 + (v - 26)
  else if v < 62 then 48 + (v - 52)
  else if v = 62 then 45
  else 95

/-- Sextet value of a character of the URL-safe alphabet. -/
def b64CharVal (c : Nat) : Option Nat :=
  if 65 ≤ c ∧ c ≤ 90 then some (c - 65)
  else if 97 ≤ c ∧ c ≤ 122 then some (26 + (c - 97))
  else if 48 ≤ c ∧ c ≤ 57 then some (52 + (c - 48))
  else if c = 45 then some 62
  else if c = 95 then some 63
  else none

/-- Bytes to sextets, 3 bytes per 4 sextets, unpadded trailing group. -/
def b64EncodeSextets : Bytes → Bytes
  | [] => []
  | [b1] => [b1 / 4, b1 % 4 * 16]
  | [b1, b2] => [b1 / 4, b1 % 4 * 16 + b2 / 16, b2 % 16 * 4]
  | b1 :: b2 :: b3 :: rest =>
    b1 / 4 :: (b1 % 4 * 16 + b2 / 16) :: (b2 % 16 * 4 + b3 / 64) :: b3 % 64 ::
      b64EncodeSextets rest

/-- Sextets back to bytes; rejects impossible lengths and non-canonical
trailing bits. -/
def b64DecodeSextets : Bytes → Option Bytes
  | [] => some []
  | [_] => none
  | [c1, c2] => if c2 % 16 = 0 then some [c1 * 4 + c2 / 16] else none
  | [c1, c2, c3] =>
    if c3 % 4 = 0 then some [c1 * 4 + c2 / 16, c2 % 16 * 16 + c3 / 4] else none
  | c1 :: c2 :: c3 :: c4 :: rest =>
    (b64DecodeSextets rest).map
      (fun r => (c1 * 4 + c2 / 16) :: (c2 % 16 * 16 + c3 / 4) :: (c3 % 4 * 64 + c4) :: r)

/-- Character-level decoding of a base64 string into sextet values. -/
def b64ReadChars : Bytes → Option Bytes
  | [] => some []
  | c :: rest =>
    match b64CharVal c, b64ReadChars rest with
    | some v, some r => some (v :: r)
    | _, _ => none

/-- `crypto::b64_encode` (URL-safe alphabet, no padding). -/
def b64_encode (s : Bytes) : Bytes := (b64EncodeSextets s).map b64Char

/-- `crypto::b64_decode`; any failure is the crate's decode error. -/
def b64_decode (s : Bytes) : Except String Bytes :=
  match b64ReadChars s with
  | none => .error "base64 decode error"
  | some sx =>
    match b64DecodeSextets sx with
    | none => .error "base64 decode error"
    | some b => .ok b

/-- One byte-mixing step (model-level pseudorandom function core). -/
def mix (a b : Nat) : Nat := (a * 131 + b * 7 + 13) % 256

/-- Fold `mix` over a byte string. -/
def foldMix (l : Bytes) : Nat := l.foldl mix 0

/-- Model-level PRF: `outLen` bytes derived from a seed. -/
def prf (seed : Bytes) (outLen : Nat) : Bytes :=
  (List.range outLen).map (fun i => foldMix (seed ++ [i]))

/-- `crypto::derive_password_hash`: PBKDF2-HMAC-SHA512 with 100 000
iterations; a deterministic function of password and salt with a 64-byte
(SHA-512-sized) output. -/
def derive_password_hash (pw salt : Bytes) : Bytes :=
  prf (salt ++ [0] ++ pw) 64

/-- `crypto::hash` model (SHA-256 of `bytes`, 32-byte output). -/
def hash (bytes : Bytes) : Bytes := prf ([1] ++ bytes) 32

/-- `ring::hmac::sign` with an HMAC-SHA256 key: 32-byte tag. -/
def hmacTag (key msg : Bytes) : Bytes := prf (key ++ [2] ++ msg) 32

/-- `crypto::hmac_sign_with_key`: hex-encoded HMAC-SHA256 tag. -/
def hmac_sign_with_key (s key : Bytes) : Bytes := hexEncode (hmacTag key s)

/-- `crypto::hmac_verify_with_key`: hex-decode the signature (returning
`false` on malformed hex), then `ring::hmac::verify`, i.e. a constant-time
comparison against the recomputed tag. -/
def hmac_verify_with_key (text sig key : Bytes) : Bool :=
  match hexDecode sig with
  | none => false
  | some sigBytes => hmacTag key text == sigBytes

/-- Model keystream byte at position `i` under `key`/`nonce`. -/
def ks (key nonce : Bytes) (i : Nat) : Nat := foldMix (key ++ nonce ++ [i])

/-- Apply the keystream to plaintext starting at position `i`. -/
def sealMask (key nonce : Bytes) : Nat → Bytes → Bytes
  | _, [] => []
  | i, b :: rest => (b + ks key nonce i) % 256 :: sealMask key nonce (i + 1) rest

/-- Remove the keystream from ciphertext starting at position `i`. -/
def openMask (key nonce : Bytes) : Nat → Bytes → Bytes
  | _, [] => []
  | i, c :: rest =>
    (c + 256 - ks key nonce i % 256) % 256 :: openMask key nonce (i + 1) rest

/-- The 16-byte GCM authentication tag of the model cipher. -/
def gcmTag (key nonce pt : Bytes) : Bytes := prf (key ++ [3] ++ nonce ++ [4] ++ pt) 16

/-- `seal_in_place_append_tag`: masked plaintext followed by the tag. -/
def gcmSeal (key nonce pt : Bytes) : Bytes :=
  sealMask key nonce 0 pt ++ gcmTag key nonce pt

/-- `open_in_place`: split off the 16-byte tag, unmask, recompute and
compare the tag; `none` models `ring::error::Unspecified`. -/
def gcmOpen (key nonce ctAndTag : Bytes) : Option Bytes :=
  if ctAndTag.length < 16 then none
  else
    let ct := ctAndTag.take (ctAndTag.length - 16)
    let tag := ctAndTag.drop (ctAndTag.length - 16)
    let pt := openMask key nonce 0 ct
    if gcmTag key nonce pt = tag then some pt else none

/-- `crypto::encrypt_bytes`: AES-256-GCM seal of `bytes` under the key
stretched from `pass` and `salt`; the nonce must be 12 bytes
(`Nonce::try_assume_unique_for_key` fails otherwise). -/
def encrypt_bytes (bytes nonce pass salt : Bytes) : Except String Bytes :=
  if nonce.length = 12 then
    .ok (gcmSeal ((derive_password_hash pass salt).take 32) nonce bytes)
  else .error "Encryption nonce not unique"

/-- `crypto::decrypt_bytes`: AES-256-GCM open with the same stretched key. -/
def decrypt_bytes (bytes nonce pass salt : Bytes) : Except String Bytes :=
  if nonce.length = 12 then
    match gcmOpen ((derive_password_hash pass salt).take 32) nonce bytes with
    | some pt => .ok pt
    | none => .error "Failed decrypting bytes"
  else .error "Decryption nonce not unique"

/-- `crypto::Enc`: the transport envelope, each field base64-encoded. -/
structure Enc where
  value : Bytes
  nonce : Bytes
  salt : Bytes
deriving DecidableEq, Repr

/-- `crypto::encrypt_with_key`.  `nonceR`/`saltR` are the results of the
`new_gcm_nonce()` (12 random bytes) and `new_pw_salt()` (128 random bytes)
calls it makes. -/
def encrypt_with_key (s key : Bytes) (nonceR saltR : Except String Bytes) :
    Except String Enc :=
  match nonceR with
  | .error _ => .error "error generating nonce"
  | .ok nonce =>
    match saltR with
    | .error _ => .error "error generating salt"
    | .ok salt =>
      match encrypt_bytes s nonce key salt with
      | .error _ => .error "encryption error"
      | .ok b => .ok { value := b64_encode b, nonce := b64_encode nonce, salt := b64_encode salt }

/-- `crypto::decrypt_with_key`: base64-decode each field, re-derive the
stretched key from the envelope's salt, open.  The final
`String::from_utf8` is the identity on bytes that came from a Rust
string. -/
def decrypt_with_key (enc : Enc) (key : Bytes) : Except String Bytes :=
  match b64_decode enc.nonce with
  | .error _ => .error "nonce base64 decode error"
  | .ok nonce =>
    match b64_decode enc.salt with
    | .error _ => .error "salt base64 decode error"
    | .ok salt =>
      match b64_decode enc.value with
      | .error _ => .error "value base64 decode error"
      | .ok value =>
        match decrypt_bytes value nonce key salt with
        | .error _ => .error "encryption error"
        | .ok bytes => .ok bytes

/-- `schema::generate_clear_token`: hex of 31 random bytes behind the
`xxxx` marker; on RNG failure `unwrap_or_else` substitutes a zero-filled
31-byte buffer. -/
def generate_clear_token (randR : Except String Bytes) : Bytes :=
  let clear_token := hexEncode (match randR with
    | .ok b => b
    | .error _ => List.replicate 31 0)
  strBytes "xxxx" ++ clear_token

/-- `error::AppError`.  `Hex` and `Reqwest` carry foreign error values in
the source; only the variant matters here. -/
inductive AppError where
  | E (s : String)
  | DBNotFound
  | Unauthorized (s : String)
  | Unverified (s : String)
  | BadRequest (s : String)
  | InvalidVerificationCode (s : String)
  | Hex
  | Reqwest
deriving DecidableEq, Repr

/-- A `pin.users` row (the columns the auth flows read). -/
structure UserRow where
  id : Nat
  handle : Bytes
  deleted : Bool
deriving DecidableEq, Repr

/-- A `pin.phones` row. -/
structure PhoneRow where
  user_id : Nat
  number : Bytes
  verified : Option Int
  verification_sent : Option Int
  verification_attempts : Int
  deleted : Bool
  modified : Int
deriving DecidableEq, Repr

/-- A `pin.verification_codes` row; `salt` and `hash` are stored as hex
strings, as `send_verification_code` writes them. -/
structure VerificationCodeRow where
  id : Nat
  user_id : Nat
  salt : Bytes
  hash : Bytes
  deleted : Bool
  created : Int
  modified : Int
deriving DecidableEq, Repr

/-- A `pin.auth_tokens` row. -/
structure AuthTokenRow where
  user_id : Nat
  hash : Bytes
  expires : Int
  deleted : Bool
deriving DecidableEq, Repr

/-- The transactional store (tables the auth flows touch).  `nextCodeId`
models the `verification_codes` id sequence. -/
structure Db where
  users : List UserRow
  phones : List PhoneRow
  codes : List VerificationCodeRow
  authTokens : List AuthTokenRow
  nextCodeId : Nat
deriving DecidableEq, Repr

/-- `models::User`: the projection of `users ⋈ phones` the resolvers carry. -/
structure User where
  id : Nat
  handle : Bytes
  phone_number : Bytes
  phone_verified : Option Int
  phone_verification_sent : Option Int
  phone_verification_attempts : Int
deriving DecidableEq, Repr

/-- `models::User::fetch_user`: `fetch_one` over non-deleted user joined
with its non-deleted phone; a missing row is `sqlx::Error::RowNotFound`,
mapped to `AppError::DBNotFound`. -/
def fetch_user (db : Db) (uid : Nat) : Except AppError User :=
  match db.users.find? (fun u => u.id == uid && !u.deleted) with
  | none => .error .DBNotFound
  | some u =>
    match db.phones.find? (fun p => p.user_id == uid && !p.deleted) with
    | none => .error .DBNotFound
    | some p =>
      .ok { id := uid, handle := u.handle, phone_number := p.number,
            phone_verified := p.verified,
            phone_verification_sent := p.verification_sent,
            phone_verification_attempts := p.verification_attempts }

/-- The configuration fields the auth flows read. -/
structure Config where
  auth_expiration_seconds : Int
  challenge_phone_expiration_seconds : Int
  signing_key : Bytes
  encryption_key : Bytes
  allowed_phone_numbers : Option (List Bytes)
deriving DecidableEq, Repr

/-- `Config::load` defaults (no environment overrides):
`AUTH_EXPIRATION_SECONDS = 2592000`,
`CHALLENGE_PHONE_EXPIRATION_SECONDS = 120`, the placeholder keys, and no
phone allow-list. -/
def defaultConfig : Config :=
  { auth_expiration_seconds := 2592000
    challenge_phone_expiration_seconds := 120
    signing_key := strBytes "01234567890123456789012345678901"
    encryption_key := strBytes "01234567890123456789012345678901"
    allowed_phone_numbers := none }

/-- The `count(*)` query: codes of this user created strictly within the
trailing 60 seconds (deleted rows included, as in the SQL). -/
def lastMinuteCount (db : Db) (uid : Nat) (now : Int) : Nat :=
  (db.codes.filter (fun r => r.user_id == uid && decide (r.created > now - 60))).length

/-- The rate-limit test of `send_verification_code`: evaluated only under
`if let Some(sent) = user.phone_verification_sent`. -/
def rateLimited (db : Db) (user : User) (now : Int) : Bool :=
  match user.phone_verification_sent with
  | some sent => decide (sent > now - 5) || decide ((lastMinuteCount db user.id now : Int) > 5)
  | none => false

/-- The 6-digit code string drawn from 6 random bytes: each byte maps to
the decimal digit character of `byte % 10`. -/
def codeDigits (bytes : Bytes) : Bytes := bytes.map (fun n => 48 + n % 10)

/-- `schema::send_verification_code`.  Runs directly against the pool (no
transaction): the insert and the phone update are committed before the SMS
dispatch.  `codeBytes`/`saltBytes` are the successful results of the two
`rand_bytes` calls (both are `.expect`-ed in the source: RNG failure
aborts).  `smsOk` is the outcome of the Twilio POST; `false` stands for a
`reqwest` failure, which the trailing `?` propagates as
`AppError::Reqwest`. -/
def send_verification_code (cfg : Config) (db : Db) (user : User) (now : Int)
    (codeBytes saltBytes : Bytes) (smsOk : Bool) : Except AppError Bytes × Db :=
  if rateLimited db user now then
    (.error (.BadRequest "too many authorization attempts"), db)
  else
    let code := codeDigits codeBytes
    let saltHex := hexEncode saltBytes
    let hashHex := hexEncode (derive_password_hash code saltBytes)
    let db1 : Db := { db with
      codes := db.codes ++
        [{ id := db.nextCodeId, user_id := user.id, salt := saltHex, hash := hashHex,
           deleted := false, created := now, modified := now }],
      nextCodeId := db.nextCodeId + 1 }
    let db2 : Db := { db1 with
      phones := db1.phones.map (fun p =>
        if p.user_id == user.id then
          { p with modified := now, verification_sent := some now,
                   verification_attempts := p.verification_attempts + 1 }
        else p) }
    let sendSms := cfg.allowed_phone_numbers.isNone ||
      (match cfg.allowed_phone_numbers with
       | some l => l.contains user.phone_number
       | none => false)
    if sendSms && !smsOk then (.error .Reqwest, db2)
    else (.ok code, db2)

/-- `select ... where user_id = $1 and deleted is false order by created
desc limit 1`. -/
def latestCode (db : Db) (uid : Nat) : Option VerificationCodeRow :=
  (db.codes.filter (fun r => r.user_id == uid && !r.deleted)).foldl
    (fun acc r =>
      match acc with
      | none => some r
      | some best => if r.created > best.created then some r else some best)
    none

/-- The two `update` statements of a successful verification: soft-delete
the consumed code row by id, then set `verified`/`modified` on the user's
phone rows (`where user_id = $1`). -/
def consumeCode (db : Db) (lc : VerificationCodeRow) (now : Int) : Db :=
  let db1 : Db := { db with
    codes := db.codes.map (fun r =>
      if r.id == lc.id then { r with deleted := true, modified := now } else r) }
  { db1 with
    phones := db1.phones.map (fun p =>
      if p.user_id == lc.user_id then
        { p with verified := some now, modified := now }
      else p) }

/-- `schema::_verify_code_for_user`, as the single transaction its callers
wrap it in (`begin; _verify_code_for_user; commit`): an error result rolls
the transaction back, so only the success value carries a new store
state. -/
def verify_code_for_user (cfg : Config) (db : Db) (user : User) (code : Bytes)
    (now : Int) : Except AppError (User × Db) :=
  match latestCode db user.id with
  | none => .error (.InvalidVerificationCode "invalid code")
  | some lc =>
    if lc.created < now - cfg.challenge_phone_expiration_seconds then
      .error (.InvalidVerificationCode "invalid code")
    else
      match hexDecode lc.hash with
      | none => .error .Hex
      | some saved_hash =>
        match hexDecode lc.salt with
        | none => .error .Hex
        | some saltBytes =>
          let this_hash := derive_password_hash code saltBytes
          if saved_hash == this_hash then
            match fetch_user (consumeCode db lc now) user.id with
            | .error e => .error e
            | .ok u => .ok (u, consumeCode db lc now)
          else .error (.InvalidVerificationCode "invalid code")

/-- The server-state effect of `schema::login_ctx`: draw 32 random bytes
(`rand_bytes(32)?` propagates RNG failure via `From<&str>` as
`AppError::E`), hex-encode as the clear token, persist its HMAC with the
expiry `now + auth_expiration_seconds`, return the clear token. -/
def login_ctx (cfg : Config) (db : Db) (user : User) (now : Int)
    (tokenBytesR : Except String Bytes) : Except AppError (Bytes × Db) :=
  match tokenBytesR with
  | .error e => .error (.E e)
  | .ok bytes =>
    let token := hexEncode bytes
    let token_hash := hmac_sign_with_key token cfg.signing_key
    .ok (token, { db with authTokens := db.authTokens ++
      [{ user_id := user.id, hash := token_hash,
         expires := now + cfg.auth_expiration_seconds, deleted := false }] })

/-- `schema::logout`: emits a cookie-clearing `set-cookie` header built
from a fresh clear token and performs no store operation (the source holds
a `todo` about revoking `pin.auth_tokens`).  Returns the clear token used
in the header together with the store. -/
def logout (db : Db) (clearRandR : Except String Bytes) : Bytes × Db :=
  (generate_clear_token clearRandR, db)

/-- Token validation of the `graphql_post` handler: HMAC the presented
credential, look up a non-deleted, non-expired `pin.auth_tokens` row with
that hash joined to its non-deleted user and phone; a miss leaves the
request anonymous (`none`). -/
def validate_token (cfg : Config) (db : Db) (presented : Bytes) (now : Int) :
    Option User :=
  let h := hmac_sign_with_key presented cfg.signing_key
  match db.authTokens.find? (fun t => t.hash == h && !t.deleted && decide (t.expires > now)) with
  | none => none
  | some t =>
    match db.users.find? (fun u => u.id == t.user_id && !u.deleted) with
    | none => none
    | some u =>
      match db.phones.find? (fun p => p.user_id == t.user_id) with
      | none => none
      | some p =>
        some { id := t.user_id, handle := u.handle, phone_number := p.number,
               phone_verified := p.verified,
               phone_verification_sent := p.verification_sent,
               phone_verification_attempts := p.verification_attempts }

/-- Whether an `Except` is a success, for stating concrete outcomes. -/
def resultOk {ε α : Type} (r : Except ε α) : Bool :=
  match r with
  | .ok _ => true
  | .error _ => false

/-- Whether an `Except` is exactly the given error, for stating concrete
outcomes decidably. -/
def resultIsErr {α : Type} (r : Except AppError α) (e : AppError) : Bool :=
  match r with
  | .error e2 => decide (e2 = e)
  | .ok _ => false

def scnUser : User :=
  { id := 1, handle := strBytes "u", phone_number := strBytes "+15551234567",
    phone_verified := none, phone_verification_sent := none,
    phone_verification_attempts := 0 }

def scnDb0 : Db :=
  { users := [{ id := 1, handle := strBytes "u", deleted := false }],
    phones := [{ user_id := 1, number := strBytes "+15551234567", verified := none,
                 verification_sent := none, verification_attempts := 0,
                 deleted := false, modified := 0 }],
    codes := [], authTokens := [], nextCodeId := 1 }

def scnStep (db : Db) (t : Int) : Db :=
  match fetch_user db 1 with
  | .ok u => (send_verification_code defaultConfig db u t [1, 2, 3, 4, 5, 6] [9] true).2
  | .error _ => db

/-- The store after one `RequestCode` round at each listed time. -/
def scnDb (ts : List Int) : Db := ts.foldl scnStep scnDb0

/-- One more `RequestCode` round at time `t` after the rounds at `ts`. -/
def scnSendAt (ts : List Int) (t : Int) : Except AppError Bytes × Db :=
  match fetch_user (scnDb ts) 1 with
  | .ok u => send_verification_code defaultConfig (scnDb ts) u t [1, 2, 3, 4, 5, 6] [9] true
  | .error e => (.error e, scnDb ts)

/-- The user row of `scnDb0`. -/
def scnUserRow : UserRow := { id := 1, handle := strBytes "u", deleted := false }

/-- The phone row of `scnDb0`. -/
def scnPhoneRow : PhoneRow :=
  { user_id := 1
    number := strBytes "+15551234567"
    verified := none
    verification_sent := none
    verification_attempts := 0
    deleted := false
    modified := 0 }

/-- A stored code row for the code string "123456" under salt `[9]`,
created at time 0. -/
def scnCodeRow : VerificationCodeRow :=
  { id := 1
    user_id := 1
    salt := hexEncode [9]
    hash := hexEncode (derive_password_hash (strBytes "123456") [9])
    deleted := false
    created := 0
    modified := 0 }

/-- `scnDb0` with the single live code row `scnCodeRow`. -/
def scnDbWithCode : Db := { scnDb0 with codes := [scnCodeRow] }

/-- A code row whose stored hash (hex of `[1]`) does not match any
derived hash, created at time 0. -/
def scnMismatchRow : VerificationCodeRow :=
  { id := 1
    user_id := 1
    salt := hexEncode [2]
    hash := hexEncode [1]
    deleted := false
    created := 0
    modified := 0 }

/-! ## Theorems -/

theorem hexDigitVal_hexDigit {n : Nat} (h : n < 16) :
    hexDigitVal (hexDigit n) = some n := by
  interval_cases n <;> simp [hexDigit, hexDigitVal]

theorem hexDecode_hexEncode : ∀ l : Bytes, (∀ b ∈ l, b < 256) →
    hexDecode (hexEncode l) = some l
  | [], _ => rfl
  | b :: rest, h => by
    have hb : b < 256 := h b (List.mem_cons_self b rest)
    have hrest := hexDecode_hexEncode rest (fun x hx => h x (List.mem_cons_of_mem b hx))
    simp only [hexEncode, hexDecode, hrest,
      hexDigitVal_hexDigit (show b / 16 < 16 by omega),
      hexDigitVal_hexDigit (show b % 16 < 16 by omega),
      Option.some.injEq, List.cons.injEq, and_true]
    omega

theorem hexEncode_length : ∀ l : Bytes, (hexEncode l).length = 2 * l.length
  | [] => rfl
  | _ :: rest => by simp [hexEncode, hexEncode_length rest]; omega

theorem b64CharVal_b64Char : ∀ v < 64, b64CharVal (b64Char v) = some v := by
  decide

theorem b64DecodeSextets_b64EncodeSextets : ∀ l : Bytes, (∀ b ∈ l, b < 256) →
    b64DecodeSextets (b64EncodeSextets l) = some l
  | [], _ => rfl
  | [b1], h => by
    have hb1 : b1 < 256 := h b1 (by simp)
    simp only [b64EncodeSextets, b64DecodeSextets]
    rw [if_pos (by omega)]
    simp only [Option.some.injEq, List.cons.injEq, and_true]
    omega
  | [b1, b2], h => by
    have hb1 : b1 < 256 := h b1 (by simp)
    have hb2 : b2 < 256 := h b2 (by simp)
    simp only [b64EncodeSextets, b64DecodeSextets]
    rw [if_pos (by omega)]
    simp only [Option.some.injEq, List.cons.injEq, and_true]
    exact ⟨by omega, by omega⟩
  | b1 :: b2 :: b3 :: rest, h => by
    have hb1 : b1 < 256 := h b1 (by simp)
    have hb2 : b2 < 256 := h b2 (by simp)
    have hb3 : b3 < 256 := h b3 (by simp)
    have hrest := b64DecodeSextets_b64EncodeSextets rest
      (fun x hx => h x (by simp [hx]))
    simp only [b64EncodeSextets, b64DecodeSextets, hrest, Option.map_some',
      Option.some.injEq, List.cons.injEq, and_true]
    exact ⟨by omega, by omega, by omega⟩

theorem b64EncodeSextets_lt : ∀ l : Bytes, (∀ b ∈ l, b < 256) →
    ∀ v ∈ b64EncodeSextets l, v < 64
  | [], _ => by simp [b64EncodeSextets]
  | [b1], h => by
    have hb1 : b1 < 256 := h b1 (by simp)
    simp only [b64EncodeSextets, List.mem_cons, List.not_mem_nil, or_false]
    rintro v (rfl | rfl) <;> omega
  | [b1, b2], h => by
    have hb1 : b1 < 256 := h b1 (by simp)
    have hb2 : b2 < 256 := h b2 (by simp)
    simp only [b64EncodeSextets, List.mem_cons, List.not_mem_nil, or_false]
    rintro v (rfl | rfl | rfl) <;> omega
  | b1 :: b2 :: b3 :: rest, h => by
    have hb1 : b1 < 256 := h b1 (by simp)
    have hb2 : b2 < 256 := h b2 (by simp)
    have hb3 : b3 < 256 := h b3 (by simp)
    have hrest := b64EncodeSextets_lt rest (fun x hx => h x (by simp [hx]))
    intro v hv
    simp only [b64EncodeSextets, List.mem_cons] at hv
    rcases hv with rfl | rfl | rfl | rfl | hv
    · omega
    · omega
    · omega
    · omega
    · exact hrest v hv

theorem b64ReadChars_map_b64Char : ∀ l : Bytes, (∀ v ∈ l, v < 64) →
    b64ReadChars (l.map b64Char) = some l
  | [], _ => rfl
  | v :: rest, h => by
    have hv : v < 64 := h v (by simp)
    have hrest := b64ReadChars_map_b64Char rest (fun x hx => h x (by simp [hx]))
    simp only [List.map_cons, b64ReadChars, b64CharVal_b64Char v hv, hrest]

theorem b64_decode_b64_encode {l : Bytes} (h : ∀ b ∈ l, b < 256) :
    b64_decode (b64_encode l) = .ok l := by
  simp only [b64_decode, b64_encode,
    b64ReadChars_map_b64Char _ (b64EncodeSextets_lt l h),
    b64DecodeSextets_b64EncodeSextets l h]

theorem mix_lt (a b : Nat) : mix a b < 256 := Nat.mod_lt _ (by omega)

theorem foldMix_lt (l : Bytes) : foldMix l < 256 := by
  have : ∀ l : Bytes, ∀ acc : Nat, acc < 256 → l.foldl mix acc < 256 := by
    intro l
    induction l with
    | nil => intro acc h; exact h
    | cons x xs ih => intro acc _; exact ih (mix acc x) (mix_lt acc x)
  exact this l 0 (by omega)

theorem prf_lt (seed : Bytes) (outLen : Nat) : ∀ b ∈ prf seed outLen, b < 256 := by
  intro b hb
  simp only [prf, List.mem_map] at hb
  obtain ⟨i, _, rfl⟩ := hb
  exact foldMix_lt _

theorem prf_length (seed : Bytes) (outLen : Nat) : (prf seed outLen).length = outLen := by
  simp [prf]

theorem openMask_sealMask (key nonce : Bytes) :
    ∀ (i : Nat) (pt : Bytes), (∀ b ∈ pt, b < 256) →
      openMask key nonce i (sealMask key nonce i pt) = pt
  | _, [], _ => rfl
  | i, b :: rest, h => by
    have hb : b < 256 := h b (by simp)
    have hrest := openMask_sealMask key nonce (i + 1) rest (fun x hx => h x (by simp [hx]))
    simp only [sealMask, openMask, hrest, List.cons.injEq, and_true]
    omega

theorem sealMask_length (key nonce : Bytes) :
    ∀ (i : Nat) (pt : Bytes), (sealMask key nonce i pt).length = pt.length
  | _, [] => rfl
  | i, _ :: rest => by simp [sealMask, sealMask_length key nonce (i + 1) rest]

theorem sealMask_lt (key nonce : Bytes) :
    ∀ (i : Nat) (pt : Bytes), ∀ b ∈ sealMask key nonce i pt, b < 256
  | _, [], _ => by simp [sealMask]
  | i, b :: rest, c => by
    intro hc
    simp only [sealMask, List.mem_cons] at hc
    rcases hc with rfl | hc
    · exact Nat.mod_lt _ (by omega)
    · exact sealMask_lt key nonce (i + 1) rest c hc

theorem gcmOpen_gcmSeal (key nonce pt : Bytes) (h : ∀ b ∈ pt, b < 256) :
    gcmOpen key nonce (gcmSeal key nonce pt) = some pt := by
  have hlen : (gcmSeal key nonce pt).length = pt.length + 16 := by
    simp [gcmSeal, sealMask_length, gcmTag, prf_length]
  have htake : (gcmSeal key nonce pt).take ((gcmSeal key nonce pt).length - 16) =
      sealMask key nonce 0 pt := by
    rw [hlen, Nat.add_sub_cancel, gcmSeal, ← sealMask_length key nonce 0 pt,
      List.take_left]
  have hdrop : (gcmSeal key nonce pt).drop ((gcmSeal key nonce pt).length - 16) =
      gcmTag key nonce pt := by
    rw [hlen, Nat.add_sub_cancel, gcmSeal, ← sealMask_length key nonce 0 pt,
      List.drop_left]
  rw [gcmOpen, if_neg (by omega)]
  simp only [htake, hdrop, openMask_sealMask key nonce 0 pt h, if_pos rfl, if_true]

theorem gcmSeal_lt (key nonce pt : Bytes) : ∀ b ∈ gcmSeal key nonce pt, b < 256 := by
  intro b hb
  rcases List.mem_append.mp hb with h | h
  · exact sealMask_lt key nonce 0 pt b h
  · exact prf_lt _ _ b h

/-- `find?` commutes with a map that does not change the predicate. -/
theorem find?_map_pred_invariant {α : Type} (f : α → α) (p : α → Bool)
    (hpf : ∀ a, p (f a) = p a) : ∀ l : List α,
    (l.map f).find? p = (l.find? p).map f
  | [] => rfl
  | x :: xs => by
    cases hx : p x with
    | true =>
      rw [List.map_cons, List.find?_cons_of_pos _ (by rw [hpf x]; exact hx),
        List.find?_cons_of_pos _ hx, Option.map_some']
    | false =>
      rw [List.map_cons, List.find?_cons_of_neg _ (by rw [hpf x, hx]; simp),
        List.find?_cons_of_neg _ (by rw [hx]; simp),
        find?_map_pred_invariant f p hpf xs]

theorem foldl_pickLatest_mem
    (f : Option VerificationCodeRow → VerificationCodeRow → Option VerificationCodeRow)
    (hf : ∀ acc r, f acc r = some r ∨ f acc r = acc) :
    ∀ (l : List VerificationCodeRow) (acc : Option VerificationCodeRow)
      (r : VerificationCodeRow), l.foldl f acc = some r → r ∈ l ∨ acc = some r
  | [], _, _, h => .inr h
  | x :: xs, acc, r, h => by
    rcases foldl_pickLatest_mem f hf xs (f acc x) r h with hmem | hacc
    · exact .inl (List.mem_cons_of_mem x hmem)
    · rcases hf acc x with hx | hk
      · rw [hx] at hacc
        exact .inl (by simp_all)
      · rw [hk] at hacc
        exact .inr hacc

theorem derive_password_hash_lt (pw salt : Bytes) :
    ∀ b ∈ derive_password_hash pw salt, b < 256 := prf_lt _ _

theorem consumeCode_users (db : Db) (lc : VerificationCodeRow) (now : Int) :
    (consumeCode db lc now).users = db.users := rfl

theorem consumeCode_codes (db : Db) (lc : VerificationCodeRow) (now : Int) :
    (consumeCode db lc now).codes = db.codes.map (fun r =>
      if r.id == lc.id then { r with deleted := true, modified := now } else r) := rfl

theorem consumeCode_phones (db : Db) (lc : VerificationCodeRow) (now : Int) :
    (consumeCode db lc now).phones = db.phones.map (fun p =>
      if p.user_id == lc.user_id then
        { p with verified := some now, modified := now }
      else p) := rfl

/-- After a consumption targeting the queried user, `fetch_user` returns
the user with the phone's `verified` timestamp set to `now`. -/
theorem fetch_user_consumeCode (db : Db) (lc : VerificationCodeRow) (now : Int)
    (uid : Nat) (urow : UserRow) (ph : PhoneRow)
    (hu : db.users.find? (fun u => u.id == uid && !u.deleted) = some urow)
    (hp : db.phones.find? (fun p => p.user_id == uid && !p.deleted) = some ph)
    (hluid : lc.user_id = uid) :
    fetch_user (consumeCode db lc now) uid =
      .ok { id := uid, handle := urow.handle, phone_number := ph.number,
            phone_verified := some now,
            phone_verification_sent := ph.verification_sent,
            phone_verification_attempts := ph.verification_attempts } := by
  have hphuid : (ph.user_id == uid) = true := by
    have := List.find?_some hp
    simp only [Bool.and_eq_true] at this
    exact this.1
  have hpf : ∀ p : PhoneRow,
      ((if p.user_id == lc.user_id then
          ({ p with verified := some now, modified := now } : PhoneRow)
        else p).user_id == uid && !(if p.user_id == lc.user_id then
          ({ p with verified := some now, modified := now } : PhoneRow)
        else p).deleted) = (p.user_id == uid && !p.deleted) := by
    intro p
    by_cases h : (p.user_id == lc.user_id) = true <;> simp [h]
  unfold fetch_user
  rw [consumeCode_users, hu, consumeCode_phones,
    find?_map_pred_invariant _ _ hpf, hp, Option.map_some']
  rw [show (ph.user_id == lc.user_id) = true by
    rw [hluid]; exact hphuid]
  simp

/-- A row returned by `latestCode` belongs to the table, belongs to the
queried user, and is not deleted. -/
theorem latestCode_spec {db : Db} {uid : Nat} {r : VerificationCodeRow}
    (h : latestCode db uid = some r) :
    r ∈ db.codes ∧ r.user_id = uid ∧ r.deleted = false := by
  unfold latestCode at h
  have hmem := foldl_pickLatest_mem _
    (fun acc r => by
      match acc with
      | none => exact .inl rfl
      | some best =>
        by_cases hgt : r.created > best.created <;> simp [hgt]) _ none r h
  rcases hmem with hmem | hacc
  · have := List.mem_filter.mp hmem
    refine ⟨this.1, ?_, ?_⟩
    · have := this.2
      simp only [Bool.and_eq_true, beq_iff_eq, Bool.not_eq_true'] at this
      exact this.1
    · have := this.2
      simp only [Bool.and_eq_true, beq_iff_eq, Bool.not_eq_true'] at this
      exact this.2
  · cases hacc

/-- C1: for every plaintext `s` and key `k`, decrypting the envelope
produced by `encrypt_with_key` (fresh 12-byte nonce, fresh salt) with the
same key via `decrypt_with_key` (which re-derives the stretched key from
the envelope's salt) returns `s`. -/
theorem encrypt_then_decrypt_roundtrip (s key nonce salt : Bytes)
    (hs : ∀ b ∈ s, b < 256) (hn12 : nonce.length = 12)
    (hn : ∀ b ∈ nonce, b < 256) (hsalt : ∀ b ∈ salt, b < 256) :
    ∃ e : Enc, encrypt_with_key s key (.ok nonce) (.ok salt) = .ok e ∧
      decrypt_with_key e key = .ok s := by
  refine ⟨{ value := b64_encode (gcmSeal ((derive_password_hash key salt).take 32) nonce s),
            nonce := b64_encode nonce, salt := b64_encode salt }, ?_, ?_⟩
  · simp only [encrypt_with_key, encrypt_bytes, if_pos hn12]
  · simp only [decrypt_with_key, b64_decode_b64_encode hn, b64_decode_b64_encode hsalt,
      b64_decode_b64_encode (gcmSeal_lt _ _ _), decrypt_bytes, if_pos hn12,
      gcmOpen_gcmSeal _ _ _ hs]

/-- C1 witness: the roundtrip at a concrete plaintext, key, nonce and
salt. -/
theorem encrypt_then_decrypt_roundtrip_witness :
    ∃ e : Enc,
      encrypt_with_key (strBytes "test") (strBytes "k")
        (.ok [0, 1, 2, 3, 4, 5, 6, 7, 8, 9, 10, 11]) (.ok [9, 8, 7]) = .ok e ∧
      decrypt_with_key e (strBytes "k") = .ok (strBytes "test") :=
  encrypt_then_decrypt_roundtrip (strBytes "test") (strBytes "k")
    [0, 1, 2, 3, 4, 5, 6, 7, 8, 9, 10, 11] [9, 8, 7]
    (by decide) (by decide) (by decide) (by decide)

/-- C7: `hmac_verify_with_key m (hmac_sign_with_key m k) k` is `true` for
every message and key, and for a signature string that is not valid hex,
verification returns `false` rather than an error. -/
theorem hmac_sign_verify (m k sig : Bytes) (hsig : hexDecode sig = none) :
    hmac_verify_with_key m (hmac_sign_with_key m k) k = true ∧
    hmac_verify_with_key m sig k = false := by
  constructor
  · have hlt : ∀ b ∈ hmacTag k m, b < 256 := prf_lt _ _
    simp only [hmac_verify_with_key, hmac_sign_with_key,
      hexDecode_hexEncode _ hlt, beq_self_eq_true]
  · simp only [hmac_verify_with_key, hsig]

/-- C7 witness: a concrete message/key pair, and the non-hex signature
`"g"`. -/
theorem hmac_sign_verify_witness :
    hmac_verify_with_key (strBytes "msg") (hmac_sign_with_key (strBytes "msg") (strBytes "k"))
      (strBytes "k") = true ∧
    hmac_verify_with_key (strBytes "msg") (strBytes "g") (strBytes "k") = false :=
  hmac_sign_verify (strBytes "msg") (strBytes "k") (strBytes "g") (by decide)

/-- C6 counterexample: in `generate_clear_token`, RNG failure is not
propagated; the token is the same one a zero-filled 31-byte buffer
produces, refuting "in every code path that draws random bytes, RNG
failure is fatal or propagated as an error rather than replaced by a
zero-filled buffer". -/
theorem clear_token_rng_failure_zero_filled :
    generate_clear_token (.error "Error getting random bytes") =
      generate_clear_token (.ok (List.replicate 31 0)) := rfl

/-- C6 amended: RNG failure is propagated as an error by the encryption
envelope (nonce and salt draws) and by session-token issuance (the paths
that `?`-propagate `rand_bytes`; the code-digit and code-salt draws in
`send_verification_code` are `.expect`-ed, aborting the process), with the
single exception of `generate_clear_token`, which substitutes a
zero-filled 31-byte buffer on RNG failure. -/
theorem rng_failure_propagates_except_clear_token (s key : Bytes) (e : String) :
    (∀ saltR, encrypt_with_key s key (.error e) saltR = .error "error generating nonce") ∧
    (∀ nonce, encrypt_with_key s key (.ok nonce) (.error e) = .error "error generating salt") ∧
    (∀ cfg db user now, login_ctx cfg db user now (.error e) = .error (.E e)) ∧
    generate_clear_token (.error e) = generate_clear_token (.ok (List.replicate 31 0)) :=
  ⟨fun _ => rfl, fun _ => rfl, fun _ _ _ _ => rfl, rfl⟩

/-- C9: `logout` leaves the server-side `pin.auth_tokens` store unchanged
(it only emits a cookie-clearing instruction), so validating any
credential after a logout gives exactly the result it gave before: a
pre-logout token still resolves to the same user until its natural
expiry. -/
theorem logout_leaves_tokens_valid (cfg : Config) (db : Db)
    (clearR : Except String Bytes) (tok : Bytes) (now : Int) :
    (logout db clearR).2.authTokens = db.authTokens ∧
    validate_token cfg (logout db clearR).2 tok now = validate_token cfg db tok now :=
  ⟨rfl, rfl⟩

/-- C10: when `user.phone_verification_sent` is `None`, the rate-limit
test of `send_verification_code` is skipped entirely: the call never
returns the rate-limit rejection, regardless of how many codes exist for
the user in the trailing 60 seconds. -/
theorem no_rate_limit_without_verification_sent (cfg : Config) (db : Db)
    (user : User) (now : Int) (codeBytes saltBytes : Bytes) (smsOk : Bool)
    (h : user.phone_verification_sent = none) :
    rateLimited db user now = false ∧
    (send_verification_code cfg db user now codeBytes saltBytes smsOk).1 ≠
      .error (.BadRequest "too many authorization attempts") := by
  have hrl : rateLimited db user now = false := by simp [rateLimited, h]
  refine ⟨hrl, ?_⟩
  unfold send_verification_code
  rw [hrl]
  simp only [Bool.false_eq_true, if_false]
  split
  · intro hcontra
    cases hcontra
  · intro hcontra
    cases hcontra

/-- C10 witness: a store holding seven codes for user 1 inside the
trailing minute; with `phone_verification_sent = None` the request is
still not rate-limited. -/
theorem no_rate_limit_without_verification_sent_witness :
    rateLimited
      { scnDb0 with codes := (List.range 7).map (fun i =>
          { id := i + 1, user_id := 1, salt := [], hash := [],
            deleted := false, created := 50, modified := 50 }) }
      scnUser 55 = false ∧
    (send_verification_code defaultConfig
      { scnDb0 with codes := (List.range 7).map (fun i =>
          { id := i + 1, user_id := 1, salt := [], hash := [],
            deleted := false, created := 50, modified := 50 }) }
      scnUser 55 [1, 2, 3, 4, 5, 6] [9] true).1 ≠
      .error (.BadRequest "too many authorization attempts") :=
  no_rate_limit_without_verification_sent defaultConfig _ scnUser 55
    [1, 2, 3, 4, 5, 6] [9] true rfl

/-- C5: the three verification failure causes — no live code row, a row
older than the expiry window, and a hash mismatch — all produce the one
value `AppError::InvalidVerificationCode "invalid code"`, so the caller
cannot distinguish them. -/
theorem verify_code_uniform_invalid (cfg : Config) (db : Db) (user : User)
    (code : Bytes) (now : Int) :
    (latestCode db user.id = none →
      verify_code_for_user cfg db user code now =
        .error (.InvalidVerificationCode "invalid code")) ∧
    (∀ lc, latestCode db user.id = some lc →
      lc.created < now - cfg.challenge_phone_expiration_seconds →
      verify_code_for_user cfg db user code now =
        .error (.InvalidVerificationCode "invalid code")) ∧
    (∀ lc saved saltB, latestCode db user.id = some lc →
      ¬ lc.created < now - cfg.challenge_phone_expiration_seconds →
      hexDecode lc.hash = some saved → hexDecode lc.salt = some saltB →
      saved ≠ derive_password_hash code saltB →
      verify_code_for_user cfg db user code now =
        .error (.InvalidVerificationCode "invalid code")) := by
  refine ⟨?_, ?_, ?_⟩
  · intro h
    simp only [verify_code_for_user, h]
  · intro lc hlc hold
    simp only [verify_code_for_user, hlc, if_pos hold]
  · intro lc saved saltB hlc hfresh hhash hsaltd hne
    have hbe : (saved == derive_password_hash code saltB) = false :=
      beq_eq_false_iff_ne.mpr hne
    simp only [verify_code_for_user, hlc, if_neg hfresh, hhash, hsaltd, hbe,
      Bool.false_eq_true, if_false]

/-- C5 witness: the three causes at concrete stores — an empty code
table, a stale row, and a fresh row whose stored hash does not match the
submitted code — each yielding the same `InvalidVerificationCode` value. -/
theorem verify_code_uniform_invalid_witness :
    verify_code_for_user defaultConfig scnDb0 scnUser (strBytes "123456") 0 =
      .error (.InvalidVerificationCode "invalid code") ∧
    verify_code_for_user defaultConfig scnDbWithCode scnUser (strBytes "123456") 1000 =
      .error (.InvalidVerificationCode "invalid code") ∧
    verify_code_for_user defaultConfig { scnDb0 with codes := [scnMismatchRow] }
      scnUser (strBytes "123456") 0 =
      .error (.InvalidVerificationCode "invalid code") :=
  ⟨(verify_code_uniform_invalid defaultConfig scnDb0 scnUser (strBytes "123456") 0).1
      (by decide),
   (verify_code_uniform_invalid defaultConfig scnDbWithCode scnUser
      (strBytes "123456") 1000).2.1 scnCodeRow (by decide) (by decide),
   (verify_code_uniform_invalid defaultConfig { scnDb0 with codes := [scnMismatchRow] }
      scnUser (strBytes "123456") 0).2.2
      scnMismatchRow [1] [2] (by decide) (by decide) (by decide) (by decide) (by decide)⟩

/-- C3: a code row created at time `T`, with expiry window
`W = challenge_phone_expiration_seconds` (default 120), verifies
successfully with the correct submitted code at `T + W − 1` and fails
with `InvalidVerificationCode` at `T + W + 1`. -/
theorem verify_code_expiry_window (cfg : Config) (db : Db) (user : User)
    (code saltB : Bytes) (r : VerificationCodeRow) (urow : UserRow) (ph : PhoneRow)
    (hlatest : latestCode db user.id = some r)
    (hsalt : r.salt = hexEncode saltB)
    (hhash : r.hash = hexEncode (derive_password_hash code saltB))
    (hsaltlt : ∀ b ∈ saltB, b < 256)
    (hu : db.users.find? (fun u => u.id == user.id && !u.deleted) = some urow)
    (hp : db.phones.find? (fun p => p.user_id == user.id && !p.deleted) = some ph) :
    (∃ u db', verify_code_for_user cfg db user code
        (r.created + cfg.challenge_phone_expiration_seconds - 1) = .ok (u, db')) ∧
    verify_code_for_user cfg db user code
        (r.created + cfg.challenge_phone_expiration_seconds + 1) =
      .error (.InvalidVerificationCode "invalid code") := by
  have hruid : r.user_id = user.id := (latestCode_spec hlatest).2.1
  constructor
  · have hfetch := fetch_user_consumeCode db r
      (r.created + cfg.challenge_phone_expiration_seconds - 1) user.id urow ph hu hp hruid
    simp only [verify_code_for_user, hlatest,
      if_neg (show ¬ r.created < r.created + cfg.challenge_phone_expiration_seconds - 1 -
        cfg.challenge_phone_expiration_seconds by omega),
      hhash, hexDecode_hexEncode _ (derive_password_hash_lt code saltB),
      hsalt, hexDecode_hexEncode _ hsaltlt, beq_self_eq_true, if_true, hfetch]
    exact ⟨_, _, rfl⟩
  · simp only [verify_code_for_user, hlatest,
      if_pos (show r.created < r.created + cfg.challenge_phone_expiration_seconds + 1 -
        cfg.challenge_phone_expiration_seconds by omega)]

/-- C3 witness: under the default 120-second window, a code created at
`T = 0` verifies at `T + 119` and is rejected at `T + 121`. -/
theorem verify_code_expiry_window_witness :
    (∃ u db', verify_code_for_user defaultConfig scnDbWithCode scnUser
      (strBytes "123456")
      (scnCodeRow.created + defaultConfig.challenge_phone_expiration_seconds - 1) =
        .ok (u, db')) ∧
    verify_code_for_user defaultConfig scnDbWithCode scnUser (strBytes "123456")
      (scnCodeRow.created + defaultConfig.challenge_phone_expiration_seconds + 1) =
      .error (.InvalidVerificationCode "invalid code") :=
  verify_code_expiry_window defaultConfig scnDbWithCode scnUser (strBytes "123456")
    [9] scnCodeRow scnUserRow scnPhoneRow
    (by decide) rfl rfl (by decide) (by decide) (by decide)

/-- C4: when the user's only live code row is `r` and the submitted code
is correct and within the window, verification succeeds, soft-deletes the
consumed row, sets the phone's `verified` timestamp, and a second
verification presenting the same (now consumed) code fails with
`InvalidVerificationCode` at any later time: a consumed code is not
reusable. -/
theorem verify_code_consumes (cfg : Config) (db : Db) (user : User)
    (code saltB : Bytes) (r : VerificationCodeRow) (urow : UserRow) (ph : PhoneRow)
    (now : Int)
    (hfilter : db.codes.filter (fun c => c.user_id == user.id && !c.deleted) = [r])
    (hsalt : r.salt = hexEncode saltB)
    (hhash : r.hash = hexEncode (derive_password_hash code saltB))
    (hsaltlt : ∀ b ∈ saltB, b < 256)
    (hfresh : ¬ r.created < now - cfg.challenge_phone_expiration_seconds)
    (hu : db.users.find? (fun u => u.id == user.id && !u.deleted) = some urow)
    (hp : db.phones.find? (fun p => p.user_id == user.id && !p.deleted) = some ph) :
    ∃ u, verify_code_for_user cfg db user code now = .ok (u, consumeCode db r now) ∧
      u.phone_verified = some now ∧
      (∀ c ∈ (consumeCode db r now).codes, c.id = r.id → c.deleted = true) ∧
      (∀ now2, verify_code_for_user cfg (consumeCode db r now) user code now2 =
        .error (.InvalidVerificationCode "invalid code")) := by
  have hrmem : r ∈ db.codes.filter (fun c => c.user_id == user.id && !c.deleted) := by
    rw [hfilter]
    exact List.mem_singleton_self r
  have hrpred := (List.mem_filter.mp hrmem).2
  have hruid : r.user_id = user.id := by
    simp only [Bool.and_eq_true, beq_iff_eq] at hrpred
    exact hrpred.1
  have hlatest : latestCode db user.id = some r := by
    unfold latestCode
    rw [hfilter]
    rfl
  have hfetch := fetch_user_consumeCode db r now user.id urow ph hu hp hruid
  refine ⟨{ id := user.id
            handle := urow.handle
            phone_number := ph.number
            phone_verified := some now
            phone_verification_sent := ph.verification_sent
            phone_verification_attempts := ph.verification_attempts }, ?_, rfl, ?_, ?_⟩
  · simp only [verify_code_for_user, hlatest, if_neg hfresh, hhash,
      hexDecode_hexEncode _ (derive_password_hash_lt code saltB), hsalt,
      hexDecode_hexEncode _ hsaltlt, beq_self_eq_true, if_true, hfetch]
  · intro c hc hcid
    rw [consumeCode_codes] at hc
    obtain ⟨c0, hc0, rfl⟩ := List.mem_map.mp hc
    by_cases hid : (c0.id == r.id) = true
    · simp [hid]
    · rw [if_neg hid] at hcid ⊢
      exact absurd (beq_iff_eq.mpr hcid) hid
  · intro now2
    have hnil : (consumeCode db r now).codes.filter
        (fun c => c.user_id == user.id && !c.deleted) = [] := by
      rw [consumeCode_codes, List.filter_eq_nil_iff]
      intro a ha
      obtain ⟨c0, hc0, rfl⟩ := List.mem_map.mp ha
      by_cases hid : (c0.id == r.id) = true
      · simp [hid]
      · rw [if_neg hid]
        intro hpred
        have hmem : c0 ∈ db.codes.filter (fun c => c.user_id == user.id && !c.deleted) :=
          List.mem_filter.mpr ⟨hc0, hpred⟩
        rw [hfilter] at hmem
        have hc0r : c0 = r := by simpa using hmem
        exact hid (beq_iff_eq.mpr (by rw [hc0r]))
    have hlatest2 : latestCode (consumeCode db r now) user.id = none := by
      unfold latestCode
      rw [hnil]
      rfl
    simp only [verify_code_for_user, hlatest2]

/-- C4 witness: the spec's scenario at concrete data — a single live code
"123456" for user 1, verified successfully at time 50, soft-deleted, the
phone marked verified, and every replay of the same code rejected. -/
theorem verify_code_consumes_witness :
    ∃ u, verify_code_for_user defaultConfig scnDbWithCode scnUser
        (strBytes "123456") 50 = .ok (u, consumeCode scnDbWithCode scnCodeRow 50) ∧
      u.phone_verified = some 50 ∧
      (∀ c ∈ (consumeCode scnDbWithCode scnCodeRow 50).codes,
        c.id = scnCodeRow.id → c.deleted = true) ∧
      (∀ now2, verify_code_for_user defaultConfig
          (consumeCode scnDbWithCode scnCodeRow 50) scnUser (strBytes "123456") now2 =
        .error (.InvalidVerificationCode "invalid code")) :=
  verify_code_consumes defaultConfig scnDbWithCode scnUser (strBytes "123456") [9]
    scnCodeRow scnUserRow scnPhoneRow 50
    (by decide) rfl rfl (by decide) (by decide) (by decide) (by decide)

/-- C2 counterexample: six `RequestCode` rounds for user 1 at times 0, 6,
12, 18, 24, 30 — all inside one 60-second window.  The first five succeed
and store five code rows; the sixth sees `last_minute_count = 5` (not
`> 5`) and `verification_sent = 24` (not within the last 5 seconds), so
it also succeeds, refuting "the 6th RequestCode for a user within 60
seconds is rejected". -/
theorem sixth_request_in_window_succeeds :
    (scnDb [0, 6, 12, 18, 24]).codes.length = 5 ∧
    lastMinuteCount (scnDb [0, 6, 12, 18, 24]) 1 30 = 5 ∧
    resultOk (scnSendAt [0, 6, 12, 18, 24] 30).1 = true := by
  decide

/-- C2 amended: `send_verification_code` rejects with the rate-limit
error whenever the user's phone has a previous `verification_sent`
timestamp and either that timestamp is within the last 5 seconds or more
than 5 codes were created in the trailing 60 seconds; concretely, with
requests spaced more than 5 seconds apart, the 7th request within 60
seconds is rejected (the 6th still succeeds), and the next request after
the window elapses succeeds. -/
theorem rate_limit_rejections (cfg : Config) (db : Db) (user : User)
    (now sent : Int) (codeBytes saltBytes : Bytes) (smsOk : Bool)
    (hsent : user.phone_verification_sent = some sent)
    (hlim : sent > now - 5 ∨ ((lastMinuteCount db user.id now : Int) > 5)) :
    send_verification_code cfg db user now codeBytes saltBytes smsOk =
      (.error (.BadRequest "too many authorization attempts"), db) ∧
    resultIsErr (scnSendAt [0, 6, 12, 18, 24, 30] 36).1
      (.BadRequest "too many authorization attempts") = true ∧
    resultOk (scnSendAt [0, 6, 12, 18, 24, 30] 95).1 = true := by
  have hrl : rateLimited db user now = true := by
    rcases hlim with h | h <;> simp [rateLimited, hsent, h]
  refine ⟨?_, by decide, by decide⟩
  unfold send_verification_code
  rw [hrl]
  simp

/-- C2 witness: a user whose code was requested 1 second ago is
rejected. -/
theorem rate_limit_rejections_witness :
    send_verification_code defaultConfig scnDb0
      { scnUser with phone_verification_sent := some 10 } 11 [1, 2, 3, 4, 5, 6] [9] true =
      (.error (.BadRequest "too many authorization attempts"), scnDb0) ∧
    resultIsErr (scnSendAt [0, 6, 12, 18, 24, 30] 36).1
      (.BadRequest "too many authorization attempts") = true ∧
    resultOk (scnSendAt [0, 6, 12, 18, 24, 30] 95).1 = true :=
  rate_limit_rejections defaultConfig scnDb0
    { scnUser with phone_verification_sent := some 10 } 11 10 [1, 2, 3, 4, 5, 6] [9]
    true rfl (.inl (by omega))

/-- C8 counterexample: an SMS dispatch failure after the code row was
committed: the stored row persists, but `send_verification_code` returns
the delivery error (`?` on the reqwest calls) instead of reporting
acceptance, refuting the fire-and-log part of the claim. -/
theorem sms_failure_surfaces_error :
    resultIsErr (send_verification_code defaultConfig scnDb0 scnUser 0
      [1, 2, 3, 4, 5, 6] [9] false).1 .Reqwest = true ∧
    (send_verification_code defaultConfig scnDb0 scnUser 0
      [1, 2, 3, 4, 5, 6] [9] false).2.codes.length = 1 := by
  decide

/-- C8 amended: if the SMS dispatch fails after the verification-code row
has been stored, the row is not rolled back — it remains in the committed
store — but the operation surfaces the delivery error to the caller
rather than reporting acceptance. -/
theorem sms_failure_keeps_row (cfg : Config) (db : Db) (user : User) (now : Int)
    (codeBytes saltBytes : Bytes)
    (hallow : cfg.allowed_phone_numbers = none)
    (hrl : rateLimited db user now = false) :
    (send_verification_code cfg db user now codeBytes saltBytes false).1 =
      .error .Reqwest ∧
    ({ id := db.nextCodeId
       user_id := user.id
       salt := hexEncode saltBytes
       hash := hexEncode (derive_password_hash (codeDigits codeBytes) saltBytes)
       deleted := false
       created := now
       modified := now } : VerificationCodeRow) ∈
      (send_verification_code cfg db user now codeBytes saltBytes false).2.codes := by
  unfold send_verification_code
  rw [hrl]
  simp [hallow]

/-- C8 witness: the amended statement at the concrete single-user store
with a failing SMS dispatch at time 0. -/
theorem sms_failure_keeps_row_witness :
    (send_verification_code defaultConfig scnDb0 scnUser 0
      [1, 2, 3, 4, 5, 6] [9] false).1 = .error .Reqwest ∧
    ({ id := scnDb0.nextCodeId
       user_id := scnUser.id
       salt := hexEncode [9]
       hash := hexEncode (derive_password_hash (codeDigits [1, 2, 3, 4, 5, 6]) [9])
       deleted := false
       created := 0
       modified := 0 } : VerificationCodeRow) ∈
      (send_verification_code defaultConfig scnDb0 scnUser 0
        [1, 2, 3, 4, 5, 6] [9] false).2.codes :=
  sms_failure_keeps_row defaultConfig scnDb0 scnUser 0 [1, 2, 3, 4, 5, 6] [9]
    rfl (by decide)

end Pinion
